import Mathlib

/-!
Verification of the template parsing/serialization core of `ignoro`
(`src/ignoro/api.py`).  Python strings are modelled as `List Char`
(`PyStr`); the Python string operations used by the source
(`str.splitlines`, `str.strip`, `str.lower`, `str.capitalize`,
substring membership, `"".join`/`"\n".join`) are embedded below.
Case mapping is modelled for ASCII letters (Python's `str.lower` and
`str.capitalize` are Unicode-aware; every name that appears in the
repository and in its tests is ASCII).
-/

set_option maxRecDepth 4000

/-- Python strings, modelled as lists of characters. -/
abbrev PyStr := List Char

/-- `str.isspace` / the whitespace set stripped by Python's `str.strip()`:
space, tab, LF, VT, FF, CR, FS, GS, RS, US, NEL, NBSP, and the Unicode
space separators. -/
def pyIsSpace (c : Char) : Bool :=
  decide (c.toNat = 32 ∨ c.toNat = 9 ∨ c.toNat = 10 ∨ c.toNat = 11 ∨
    c.toNat = 12 ∨ c.toNat = 13 ∨ c.toNat = 28 ∨ c.toNat = 29 ∨
    c.toNat = 30 ∨ c.toNat = 31 ∨ c.toNat = 133 ∨ c.toNat = 160 ∨
    c.toNat = 0x1680 ∨ (0x2000 ≤ c.toNat ∧ c.toNat ≤ 0x200a) ∨
    c.toNat = 0x2028 ∨ c.toNat = 0x2029 ∨ c.toNat = 0x202f ∨
    c.toNat = 0x205f ∨ c.toNat = 0x3000)

/-- The line boundaries recognised by Python's `str.splitlines`:
LF, CR, VT, FF, FS, GS, RS, NEL, LINE SEPARATOR, PARAGRAPH SEPARATOR
(CRLF is handled as a single boundary in `splitlinesAux`). -/
def pyIsLineBreak (c : Char) : Bool :=
  decide (c.toNat = 10 ∨ c.toNat = 13 ∨ c.toNat = 11 ∨ c.toNat = 12 ∨
    c.toNat = 28 ∨ c.toNat = 29 ∨ c.toNat = 30 ∨ c.toNat = 133 ∨
    c.toNat = 0x2028 ∨ c.toNat = 0x2029)

/-- Worker for `pySplitlines`; `acc` holds the current line reversed. -/
def splitlinesAux : List Char → List Char → List PyStr
  | [], acc => if acc.isEmpty then [] else [acc.reverse]
  | c :: cs, acc =>
    if c.toNat == 13 then
      match cs with
      | d :: cs' =>
        if d.toNat == 10 then acc.reverse :: splitlinesAux cs' []
        else acc.reverse :: splitlinesAux (d :: cs') []
      | [] => [acc.reverse]
    else if pyIsLineBreak c then acc.reverse :: splitlinesAux cs []
    else splitlinesAux cs (c :: acc)

/-- Python `str.splitlines()`. -/
def pySplitlines (s : PyStr) : List PyStr :=
  splitlinesAux s []

/-- Python `str.strip()` (no argument): remove leading and trailing
whitespace. -/
def pyStrip (s : PyStr) : PyStr :=
  (((s.dropWhile pyIsSpace).reverse.dropWhile pyIsSpace).reverse)

/-- ASCII lower-casing of a character (model of Python case mapping). -/
def asciiLower (c : Char) : Char :=
  if 65 ≤ c.toNat ∧ c.toNat ≤ 90 then Char.ofNat (c.toNat + 32) else c

/-- ASCII upper-casing of a character (model of Python case mapping). -/
def asciiUpper (c : Char) : Char :=
  if 97 ≤ c.toNat ∧ c.toNat ≤ 122 then Char.ofNat (c.toNat - 32) else c

/-- Python `str.lower()` (ASCII model). -/
def pyLower (s : PyStr) : PyStr :=
  s.map asciiLower

/-- Python `str.capitalize()`: first character upper-cased (title-cased),
the rest lower-cased (ASCII model). -/
def pyCapitalize (s : PyStr) : PyStr :=
  match s with
  | [] => []
  | c :: cs => asciiUpper c :: cs.map asciiLower

/-- `needle` occurs at the start of `hay` (Python `str.startswith`). -/
def startsWithL : PyStr → PyStr → Bool
  | [], _ => true
  | _ :: _, [] => false
  | c :: cs, d :: ds => c == d && startsWithL cs ds

/-- Python substring membership `needle in hay` (contiguous). -/
def containsSub (needle : PyStr) : PyStr → Bool
  | [] => startsWithL needle []
  | d :: ds => startsWithL needle (d :: ds) || containsSub needle ds

/-- Python lexicographic string comparison `s < t` (by code point). -/
def pyStrLt : PyStr → PyStr → Bool
  | [], [] => false
  | [], _ :: _ => true
  | _ :: _, [] => false
  | c :: cs, d :: ds =>
    if c.toNat < d.toNat then true
    else if d.toNat < c.toNat then false
    else pyStrLt cs ds

/-- `"".join(f"{line}\n" for line in lines)`: every line with a trailing
newline appended. -/
def catLines (ls : List PyStr) : PyStr :=
  ls.foldr (fun l acc => l ++ '\n' :: acc) []

/-- `"\n".join(strings)`: intercalate a newline between the pieces. -/
def joinSep : List PyStr → PyStr
  | [] => []
  | [l] => l
  | l :: ls => l ++ '\n' :: joinSep ls

/-- Worker for `findMetadata`, keeping the current line index. -/
def findMetadataAux (p : PyStr → Option α) : Nat → List PyStr → List (Nat × α)
  | _, [] => []
  | i, l :: ls =>
    match p l with
    | some a => (i, a) :: findMetadataAux p (i + 1) ls
    | none => findMetadataAux p (i + 1) ls

/-- `_FindMetadataMixin._find_metadata`: scan the lines, returning
(index, capture) for every line the pattern matches. -/
def findMetadata (p : PyStr → Option α) (lines : List PyStr) : List (Nat × α) :=
  findMetadataAux p 0 lines

/-- The regex `^### (\S+) ###$` applied to one line (which contains no
line breaks): the line is `### <name> ###` with `<name>` nonempty and
free of whitespace; returns the captured name. -/
def headerName? (l : PyStr) : Option PyStr :=
  if startsWithL ("### ".data) l ∧ 9 ≤ l.length ∧
      l.drop (l.length - 4) = " ###".data then
    let mid := (l.drop 4).take (l.length - 8)
    if mid.all (fun c => !pyIsSpace c) then some mid else none
  else none

/-- Decidable equality for `Except`, used to evaluate the parser results
on concrete inputs. -/
instance {ε α : Type} [DecidableEq ε] [DecidableEq α] : DecidableEq (Except ε α) :=
  fun a b =>
    match a, b with
    | .error e, .error f =>
      if h : e = f then .isTrue (by rw [h]) else .isFalse (by simp [h])
    | .ok x, .ok y =>
      if h : x = y then .isTrue (by rw [h]) else .isFalse (by simp [h])
    | .error _, .ok _ => .isFalse (by simp)
    | .ok _, .error _ => .isFalse (by simp)

/-! ## The source model: `Template` (`src/ignoro/api.py`) -/

/-- A `.gitignore` template (`Template` in `api.py`): `name` (stored
lower-cased by `__init__`), `header` (the banner line derived from the
name), and `_body`, which is `None` until the body is supplied or
fetched. -/
structure Template where
  name : PyStr
  header : PyStr
  bodyOpt : Option PyStr
deriving DecidableEq, Repr

/-- `Template.__init__(name, body=None)`:
`self.name = name.lower()`, `self.header = f"### {self.name.capitalize()} ###"`,
`self._body = body`. -/
def Template.init (name : PyStr) (body : Option PyStr) : Template :=
  { name := pyLower name
  , header := "### ".data ++ pyCapitalize (pyLower name) ++ " ###".data
  , bodyOpt := body }

/-- `Template.__eq__`: names compared case-insensitively
(`self.name.lower() == other.name.lower()`). -/
def Template.beq (t u : Template) : Bool :=
  pyLower t.name == pyLower u.name

/-- `Template.__hash__` is `hash(self.name)`; we model the hash's key:
equal keys give equal Python hashes. -/
def Template.hashKey (t : Template) : PyStr :=
  t.name

/-- `Template.__lt__`: `self.name < other.name`. -/
def Template.lt (t u : Template) : Bool :=
  pyStrLt t.name u.name

/-- `Template.parse(content)`: strip and split the input into lines, find
all lines matching `^### (\S+) ###$`; error `"Missing header"` on zero
matches, `"Multiple headers"` on more than one; otherwise the body is
every line after the header each with a newline appended, and it must not
be blank (`"Missing body"`); the result is `Template(name, body)`. -/
def Template.parse (content : PyStr) : Except PyStr Template :=
  let lines := pySplitlines (pyStrip content)
  match findMetadata headerName? lines with
  | [] => .error "Missing header".data
  | [(index, name)] =>
    let body := catLines (lines.drop (index + 1))
    if pyStrip body = [] then .error "Missing body".data
    else .ok (Template.init name (some body))
  | _ => .error "Multiple headers".data

/-- `Template._strip(response)`: drop the first 3 and last 2 lines of the
remote response and rejoin with newlines (`"\n".join(lines[3:-2])`). -/
def Template.stripResponse (response : PyStr) : PyStr :=
  let lines := pySplitlines response
  joinSep ((lines.take (lines.length - 2)).drop 3)

/-- `Template.__str__` = `f"{self.header}\n{self.body}"`, modelled for
templates whose body is already resolved (the lazy fetch path of the
`body` property is modelled separately by `Template.bodyGet`). -/
def Template.strRes (t : Template) : Option PyStr :=
  t.bodyOpt.map (fun b => t.header ++ '\n' :: b)

/-- `Template.body` setter: `self._body = value`. -/
def Template.setBody (t : Template) (value : PyStr) : Template :=
  { t with bodyOpt := some value }

/-- The `Template.body` property.  `fetch` is the catalog client
(`requests.get` of `BASE_URL/<name>`), returning the raw response text or
an `ApiError` message.  The result carries the returned body, the
template state after the read, and the number of outbound fetches
performed (0 or 1).  When `_body` is `None` the response is stripped with
`Template._strip` and parsed with `Template.parse`, and the parsed body is
cached in `_body`. -/
def Template.bodyGet (t : Template) (fetch : PyStr → Except PyStr PyStr) :
    Except PyStr (PyStr × Template × Nat) :=
  match t.bodyOpt with
  | some b => .ok (b, t, 0)
  | none =>
    match fetch (pyLower t.name) with
    | .error e => .error e
    | .ok response =>
      match Template.parse (Template.stripResponse response) with
      | .error e => .error e
      | .ok parsed =>
        let b := parsed.bodyOpt.getD []
        .ok (b, { t with bodyOpt := some b }, 1)

/-- `Template.__ne__` is `return self != other`, which invokes `__ne__`
again on the same operands.  The recursion is modelled with fuel standing
for the call stack; `none` means no result is ever produced
(`RecursionError` in Python). -/
def Template.neFuel (t u : Template) : Nat → Option Bool
  | 0 => none
  | n + 1 => Template.neFuel t u n

/-! ## The source model: `TemplateList` -/

/-- `TemplateList.__eq__`: `self.data == other.data`, i.e. Python list
equality — same length and element-wise `Template.__eq__`. -/
def TemplateList.beqL : List Template → List Template → Bool
  | [], [] => true
  | x :: xs, y :: ys => Template.beq x y && TemplateList.beqL xs ys
  | _, _ => false

/-- `TemplateList.__ne__` is `return self != other`, the same infinite
self-recursion as `Template.__ne__` (fuel semantics, `none` = no result). -/
def TemplateList.neFuel (xs ys : List Template) : Nat → Option Bool
  | 0 => none
  | n + 1 => TemplateList.neFuel xs ys n

/-- The generator `str(template) for template in self.data` of
`TemplateList.__str__`, modelled for resolved bodies (`none` as soon as
one template is unresolved). -/
def TemplateList.renderAll : List Template → Option (List PyStr)
  | [] => some []
  | t :: ts =>
    match t.strRes, TemplateList.renderAll ts with
    | some s, some ss => some (s :: ss)
    | _, _ => none

/-- `TemplateList.__str__`: `"\n".join(str(template) for template in
self.data)`, modelled for resolved bodies. -/
def TemplateList.strRes (xs : List Template) : Option PyStr :=
  (TemplateList.renderAll xs).map joinSep

/-- First index of a list element satisfying `p` (`list.index` combined
with the `in` membership test of `TemplateList.replace`). -/
def firstIdx (p : α → Bool) : List α → Option Nat
  | [] => none
  | x :: xs => if p x then some 0 else (firstIdx p xs).map (· + 1)

/-- `TemplateList.replace(template)`: if a template with the same
canonical name is in the list (`template in self.data`), substitute the
new template at its first index (`self.data[self.data.index(template)] =
template`); otherwise append it. -/
def TemplateList.replace (xs : List Template) (t : Template) : List Template :=
  match firstIdx (fun u => Template.beq u t) xs with
  | some i => xs.set i t
  | none => xs ++ [t]

/-- `TemplateList.contains(term)`: templates whose (lower-cased) name has
the lower-cased term as a substring. -/
def TemplateList.containsT (xs : List Template) (term : PyStr) : List Template :=
  xs.filter (fun t => containsSub (pyLower term) (pyLower t.name))

/-- The span-splitting loop of `TemplateList.parse`: given the line list
and the (ascending) header indices, parse `lines[current:next]` for each
pair of consecutive headers (the last span runs to the end) with
`Template.parse`, appending the results in order; a `ParseError` from any
span propagates. -/
def TemplateList.parseSpans (lines : List PyStr) :
    List Nat → Except PyStr (List Template)
  | [] => .ok []
  | [h] => (Template.parse (catLines (lines.drop h))).map (fun t => [t])
  | h₁ :: h₂ :: rest => do
    let t ← Template.parse (catLines ((lines.drop h₁).take (h₂ - h₁)))
    let ts ← TemplateList.parseSpans lines (h₂ :: rest)
    return t :: ts

/-- `TemplateList.parse(text)`: strip and split into lines, find all
lines matching `^### \S+ ###$` (error `"Missing template headers"` when
none), then parse each header-delimited span with `Template.parse`. -/
def TemplateList.parse (text : PyStr) : Except PyStr (List Template) :=
  let lines := pySplitlines (pyStrip text)
  match (findMetadata headerName? lines).map Prod.fst with
  | [] => .error "Missing template headers".data
  | h :: hs => TemplateList.parseSpans lines (h :: hs)

/-! ## The source model: `Gitignore` -/

/-- A `.gitignore` document: wraps a template list (`Gitignore.__init__`;
`None` becomes the empty list). -/
structure Gitignore where
  template_list : List Template
deriving DecidableEq, Repr

/-- `Gitignore._header` (two banner lines, each newline-terminated). -/
def Gitignore.headerText : PyStr :=
  ("# Created by https://github.com/solbero/ignoro\n" ++
    "# TEXT BELOW THIS LINE WAS AUTOMATICALLY GENERATED\n").data

/-- `Gitignore._footer`. -/
def Gitignore.footerText : PyStr :=
  "# TEXT ABOVE THIS LINE WAS AUTOMATICALLY GENERATED\n".data

/-- The document header banner line matched by
`^# TEXT BELOW THIS LINE WAS AUTOMATICALLY GENERATED$`. -/
def docHeaderLine : PyStr :=
  "# TEXT BELOW THIS LINE WAS AUTOMATICALLY GENERATED".data

/-- The document footer banner line matched by
`^# TEXT ABOVE THIS LINE WAS AUTOMATICALLY GENERATED$`. -/
def docFooterLine : PyStr :=
  "# TEXT ABOVE THIS LINE WAS AUTOMATICALLY GENERATED".data

/-- `Gitignore.__eq__`: equality of the wrapped template lists. -/
def Gitignore.beqG (g h : Gitignore) : Bool :=
  TemplateList.beqL g.template_list h.template_list

/-- `Gitignore.dumps()` = `str(self)` =
`f"{self._header}\n{self.template_list}\n{self._footer}"`, modelled for
resolved bodies. -/
def Gitignore.dumpsRes (g : Gitignore) : Option PyStr :=
  (TemplateList.strRes g.template_list).map
    (fun s => Gitignore.headerText ++ '\n' :: s ++ '\n' :: Gitignore.footerText)

/-- `Gitignore._parse(text)`: the banner scan runs over
`text.splitlines()` (unstripped), the content slice over
`text.strip().splitlines()`; the header must occur exactly once and the
footer exactly once, the lines strictly between them must not be blank,
and they are handed to `TemplateList.parse`. -/
def Gitignore.parseDoc (text : PyStr) : Except PyStr Gitignore :=
  let lines := pySplitlines (pyStrip text)
  let headers := (findMetadata
    (fun l => if l = docHeaderLine then some () else none)
    (pySplitlines text)).map Prod.fst
  let footers := (findMetadata
    (fun l => if l = docFooterLine then some () else none)
    (pySplitlines text)).map Prod.fst
  if headers.length = 0 ∧ footers.length = 0 then
    .error "Missing ignoro header and footer".data
  else if headers.length = 0 then .error "Missing ignoro header".data
  else if 1 < headers.length then .error "Multiple ignoro headers".data
  else if footers.length = 0 then .error "Missing ignoro footer".data
  else if 1 < footers.length then .error "Multiple ignoro footers".data
  else
    let indexHeader := headers.headD 0
    let indexFooter := footers.headD 0
    let content :=
      catLines ((lines.drop (indexHeader + 1)).take (indexFooter - (indexHeader + 1)))
    if pyStrip content = [] then .error "Missing .gitignore body".data
    else (TemplateList.parse content).map Gitignore.mk

/-- `Gitignore.loads(text)`: `Gitignore._parse`, re-raising a
`ParseError` as `"Input is invalid: <original message>"`. -/
def Gitignore.loads (text : PyStr) : Except PyStr Gitignore :=
  match Gitignore.parseDoc text with
  | .ok g => .ok g
  | .error e => .error ("Input is invalid: ".data ++ e)

/-! ## Derived notions used by the round-trip analysis -/

/-- A line consisting only of whitespace (or empty). -/
def blankL (l : PyStr) : Bool :=
  l.all pyIsSpace

/-- A line containing no line-break characters (as produced by
`pySplitlines`). -/
def breakFree (l : PyStr) : Bool :=
  l.all (fun c => !pyIsLineBreak c)

/-- The line begins with a non-whitespace character. -/
def startsNonWs (l : PyStr) : Bool :=
  match l with
  | [] => false
  | c :: _ => !pyIsSpace c

/-- Remove trailing whitespace of a string or line (the right half of
`str.strip()`). -/
def rstripL (s : PyStr) : PyStr :=
  (s.reverse.dropWhile pyIsSpace).reverse

/-- The effect of `str.strip()` on a newline-terminated line list: drop
the trailing all-whitespace lines, then trim the trailing whitespace of
the last remaining line. -/
def trimTrail (ls : List PyStr) : List PyStr :=
  match ls.reverse.dropWhile blankL with
  | [] => []
  | l :: rest => (rstripL l :: rest).reverse

/-- The template banner line for display name `dn`. -/
def mkHeader (dn : PyStr) : PyStr :=
  "### ".data ++ dn ++ " ###".data

/-- A rendered block, abstractly: a display name and the body's lines. -/
abbrev Block := PyStr × List PyStr

/-- The line list of a concatenation of rendered blocks: each block is
its banner line followed by its body lines, and consecutive blocks are
separated by one blank line (the newline inserted by `"\n".join` after
the body's own trailing newline). -/
def linesOfBlocks : List Block → List PyStr
  | [] => []
  | [(dn, bl)] => mkHeader dn :: bl
  | (dn, bl) :: b :: bs => mkHeader dn :: bl ++ [] :: linesOfBlocks (b :: bs)

/-- The (index, display name) pairs at which the banner lines of the
blocks sit inside `linesOfBlocks`, starting at index `i`. -/
def hdrPairs : Nat → List Block → List (Nat × PyStr)
  | _, [] => []
  | i, [(dn, _)] => [(i, dn)]
  | i, (dn, bl) :: b :: bs => (i, dn) :: hdrPairs (i + (bl.length + 2)) (b :: bs)

/-- Replace the last block's body lines by their trimmed form (the effect
of the outer `str.strip()` on the last block). -/
def trimLastBlock : List Block → List Block
  | [] => []
  | [(dn, bl)] => [(dn, trimTrail bl)]
  | b :: b' :: bs => b :: trimLastBlock (b' :: bs)

/-- Well-formedness of a block: the display name is nonempty and free of
whitespace; every body line is break-free and does not begin with
`"### "`; and some body line is not blank. -/
def BlockWf (b : Block) : Prop :=
  b.1 ≠ [] ∧ b.1.all (fun c => !pyIsSpace c) = true ∧
  (∀ l ∈ b.2, breakFree l = true ∧ startsWithL "### ".data l = false) ∧
  (∃ l ∈ b.2, blankL l = false)

/-- An in-memory template built from a raw name and body lines (the body
string is the lines each newline-terminated). -/
def templateOfPair (q : PyStr × List PyStr) : Template :=
  Template.init q.1 (some (catLines q.2))

/-- The rendered block of such a template: the display name is
`name.lower().capitalize()`. -/
def blockOfPair (q : PyStr × List PyStr) : Block :=
  (pyCapitalize (pyLower q.1), q.2)

/-- The exact text produced by `Gitignore(TemplateList()).dumps()`. -/
def emptyDocText : PyStr :=
  ("# Created by https://github.com/solbero/ignoro\n" ++
   "# TEXT BELOW THIS LINE WAS AUTOMATICALLY GENERATED\n" ++
   "\n\n" ++
   "# TEXT ABOVE THIS LINE WAS AUTOMATICALLY GENERATED\n").data


/-! ## Helper lemmas -/

theorem beq_self_pyStr (s : PyStr) : (s == s) = true := by
  simp

theorem startsWithL_self (s : PyStr) : startsWithL s s = true := by
  induction s with
  | nil => rfl
  | cons c cs ih => simp [startsWithL, ih]

theorem containsSub_self (s : PyStr) : containsSub s s = true := by
  cases s with
  | nil => rfl
  | cons c cs => simp [containsSub, startsWithL_self]

theorem pyIsSpace_of_break {c : Char} (h : pyIsLineBreak c = true) :
    pyIsSpace c = true := by
  rw [pyIsLineBreak, decide_eq_true_eq] at h
  rw [pyIsSpace, decide_eq_true_eq]
  omega

theorem break_toNat_ne {c : Char} (h : pyIsLineBreak c = false) :
    (c.toNat == 13) = false := by
  rw [pyIsLineBreak, decide_eq_false_iff_not] at h
  simp only [beq_eq_false_iff_ne, ne_eq]
  omega

theorem breakFree_cons {c : Char} {cs : PyStr} (h : breakFree (c :: cs) = true) :
    pyIsLineBreak c = false ∧ breakFree cs = true := by
  simp only [breakFree, List.all_cons, Bool.and_eq_true, Bool.not_eq_true'] at h
  exact ⟨h.1, h.2⟩

theorem splitlinesAux_line (l : PyStr) (rest : List Char) (acc : List Char)
    (hl : breakFree l = true) :
    splitlinesAux (l ++ '\n' :: rest) acc =
      (acc.reverse ++ l) :: splitlinesAux rest [] := by
  induction l generalizing acc with
  | nil =>
    rw [List.nil_append, splitlinesAux.eq_def]
    simp only [show ('\n'.toNat == 13) = false from by decide,
      show pyIsLineBreak '\n' = true from by decide,
      Bool.false_eq_true, if_false, if_true, List.append_nil]
  | cons c cs ih =>
    obtain ⟨hc, hcs⟩ := breakFree_cons hl
    rw [List.cons_append, splitlinesAux.eq_def]
    simp only [break_toNat_ne hc, hc, Bool.false_eq_true, if_false]
    rw [ih _ hcs]
    simp

theorem splitlinesAux_noBreak (l : PyStr) (acc : List Char)
    (hl : breakFree l = true) (hne : acc ≠ [] ∨ l ≠ []) :
    splitlinesAux l acc = [acc.reverse ++ l] := by
  induction l generalizing acc with
  | nil =>
    rcases hne with h | h
    · rw [splitlinesAux.eq_def]
      simp [h]
    · exact absurd rfl h
  | cons c cs ih =>
    obtain ⟨hc, hcs⟩ := breakFree_cons hl
    rw [splitlinesAux.eq_def]
    simp only [break_toNat_ne hc, hc, Bool.false_eq_true, if_false]
    rw [ih _ hcs (Or.inl (by simp))]
    simp

theorem catLines_cons (l : PyStr) (ls : List PyStr) :
    catLines (l :: ls) = l ++ '\n' :: catLines ls := rfl

theorem catLines_append (xs ys : List PyStr) :
    catLines (xs ++ ys) = catLines xs ++ catLines ys := by
  induction xs with
  | nil => rfl
  | cons x xs ih => simp [catLines_cons, ih]

theorem pySplitlines_catLines (ls : List PyStr)
    (h : ∀ l ∈ ls, breakFree l = true) :
    pySplitlines (catLines ls) = ls := by
  induction ls with
  | nil => rfl
  | cons l ls ih =>
    rw [catLines_cons, pySplitlines, splitlinesAux_line l _ [] (h l (by simp))]
    simp only [List.reverse_nil, List.nil_append]
    rw [show splitlinesAux (catLines ls) [] = pySplitlines (catLines ls) from rfl,
      ih (fun x hx => h x (by simp [hx]))]

theorem pySplitlines_catLines_last (ls : List PyStr) (last : PyStr)
    (h : ∀ l ∈ ls, breakFree l = true) (hlast : breakFree last = true)
    (hne : last ≠ []) :
    pySplitlines (catLines ls ++ last) = ls ++ [last] := by
  induction ls with
  | nil =>
    simp only [catLines, List.foldr_nil, List.nil_append]
    rw [pySplitlines, splitlinesAux_noBreak last [] hlast (Or.inr hne)]
    simp
  | cons l ls ih =>
    rw [catLines_cons]
    have : (l ++ '\n' :: catLines ls) ++ last = l ++ '\n' :: (catLines ls ++ last) := by
      simp
    rw [this, pySplitlines, splitlinesAux_line l _ [] (h l (by simp))]
    simp only [List.reverse_nil, List.nil_append]
    rw [show splitlinesAux (catLines ls ++ last) [] =
      pySplitlines (catLines ls ++ last) from rfl,
      ih (fun x hx => h x (by simp [hx]))]
    simp

theorem dropWhile_append_all {p : α → Bool} {xs : List α} (ys : List α)
    (h : ∀ x ∈ xs, p x = true) :
    (xs ++ ys).dropWhile p = ys.dropWhile p := by
  induction xs with
  | nil => rfl
  | cons x xs ih =>
    simp only [List.cons_append, List.dropWhile_cons, h x (by simp)]
    exact ih (fun a ha => h a (by simp [ha]))

theorem dropWhile_append_stop {p : α → Bool} {xs : List α} (ys : List α)
    (h : xs.dropWhile p ≠ []) :
    (xs ++ ys).dropWhile p = xs.dropWhile p ++ ys := by
  induction xs with
  | nil => exact absurd rfl h
  | cons x xs ih =>
    by_cases hp : p x
    · simp only [List.cons_append, List.dropWhile_cons, hp, if_true]
      simp only [List.dropWhile_cons, hp, if_true] at h
      exact ih h
    · simp [List.dropWhile_cons, hp]

theorem head_dropWhile_false {p : α → Bool} {l : List α} {c : α} {cs : List α}
    (h : l.dropWhile p = c :: cs) : p c = false := by
  induction l with
  | nil => simp at h
  | cons x xs ih =>
    cases hpx : p x with
    | true =>
      simp only [List.dropWhile_cons, hpx, if_true] at h
      exact ih h
    | false =>
      simp only [List.dropWhile_cons, hpx] at h
      simp only [Bool.false_eq_true, if_false, List.cons.injEq] at h
      rw [← h.1]
      exact hpx

theorem dropWhile_ne_nil_of_exists {p : α → Bool} {l : List α}
    (h : ∃ x ∈ l, p x = false) : l.dropWhile p ≠ [] := by
  induction l with
  | nil => simp at h
  | cons x xs ih =>
    by_cases hp : p x
    · simp only [List.dropWhile_cons, hp, if_true]
      apply ih
      obtain ⟨y, hy, hpy⟩ := h
      rcases List.mem_cons.mp hy with rfl | hy
      · simp [hp] at hpy
      · exact ⟨y, hy, hpy⟩
    · simp [List.dropWhile_cons, hp]

theorem exists_mem_dropWhile {p : α → Bool} {l : List α}
    (h : ∃ x ∈ l, p x = false) : ∃ x ∈ l.dropWhile p, p x = false := by
  induction l with
  | nil => simp at h
  | cons x xs ih =>
    cases hpx : p x with
    | true =>
      simp only [List.dropWhile_cons, hpx, if_true]
      apply ih
      obtain ⟨y, hy, hpy⟩ := h
      rcases List.mem_cons.mp hy with rfl | hy
      · rw [hpx] at hpy
        cases hpy
      · exact ⟨y, hy, hpy⟩
    | false =>
      simp only [List.dropWhile_cons, hpx, Bool.false_eq_true, if_false]
      exact ⟨x, by simp, hpx⟩

theorem mem_of_mem_dropWhile {p : α → Bool} {l : List α} {x : α}
    (h : x ∈ l.dropWhile p) : x ∈ l := by
  induction l with
  | nil => simp at h
  | cons y ys ih =>
    cases hpy : p y with
    | true =>
      simp only [List.dropWhile_cons, hpy, if_true] at h
      exact List.mem_cons_of_mem _ (ih h)
    | false =>
      simp only [List.dropWhile_cons, hpy, Bool.false_eq_true, if_false] at h
      exact h

theorem prop_of_mem_takeWhile {p : α → Bool} {l : List α} {x : α}
    (h : x ∈ l.takeWhile p) : p x = true := by
  induction l with
  | nil => simp at h
  | cons y ys ih =>
    cases hpy : p y with
    | true =>
      simp only [List.takeWhile_cons, hpy, if_true] at h
      rcases List.mem_cons.mp h with rfl | h
      · exact hpy
      · exact ih h
    | false =>
      simp [List.takeWhile_cons, hpy] at h

theorem dropWhile_idem {p : α → Bool} (l : List α) :
    (l.dropWhile p).dropWhile p = l.dropWhile p := by
  cases h : l.dropWhile p with
  | nil => rfl
  | cons c cs =>
    rw [List.dropWhile_cons, head_dropWhile_false h]
    simp

theorem rstripL_append_rest (l : PyStr) :
    rstripL l ++ (l.reverse.takeWhile pyIsSpace).reverse = l := by
  rw [rstripL, ← List.reverse_append, List.takeWhile_append_dropWhile,
    List.reverse_reverse]

theorem rstripL_ne_nil {l : PyStr} (h : blankL l = false) : rstripL l ≠ [] := by
  have hex : ∃ c ∈ l, pyIsSpace c = false := by
    rw [blankL, List.all_eq_false] at h
    obtain ⟨c, hc, hpc⟩ := h
    exact ⟨c, hc, by simpa using hpc⟩
  obtain ⟨c, hc, hpc⟩ := hex
  have : l.reverse.dropWhile pyIsSpace ≠ [] :=
    dropWhile_ne_nil_of_exists ⟨c, by simpa using hc, hpc⟩
  rw [rstripL]
  simpa using this

theorem mem_rstripL {l : PyStr} {c : Char} (h : c ∈ rstripL l) : c ∈ l := by
  rw [rstripL, List.mem_reverse] at h
  have := mem_of_mem_dropWhile h
  simpa using this

theorem rstripL_not_blank {l : PyStr} (h : blankL l = false) :
    blankL (rstripL l) = false := by
  cases hd : l.reverse.dropWhile pyIsSpace with
  | nil =>
    exact absurd (by rw [rstripL, hd]; rfl) (rstripL_ne_nil h)
  | cons c cs =>
    rw [blankL, List.all_eq_false]
    refine ⟨c, ?_, by simp [head_dropWhile_false hd]⟩
    rw [rstripL, hd]
    simp

theorem startsWithL_append (s r : PyStr) : startsWithL s (s ++ r) = true := by
  induction s with
  | nil => rfl
  | cons c cs ih => simp [startsWithL, ih]

theorem startsWithL_extend (p a r : PyStr) (h : startsWithL p a = true) :
    startsWithL p (a ++ r) = true := by
  induction p generalizing a with
  | nil => rfl
  | cons c cs ih =>
    cases a with
    | nil => simp [startsWithL] at h
    | cons d ds =>
      simp only [startsWithL, Bool.and_eq_true] at h
      simp only [List.cons_append, startsWithL, Bool.and_eq_true]
      exact ⟨h.1, ih ds h.2⟩

theorem rstripL_startsWith_false {l : PyStr}
    (h : startsWithL "### ".data l = false) :
    startsWithL "### ".data (rstripL l) = false := by
  cases hs : startsWithL "### ".data (rstripL l) with
  | false => rfl
  | true =>
    have h2 := startsWithL_extend _ _ ((l.reverse.takeWhile pyIsSpace).reverse) hs
    rw [rstripL_append_rest] at h2
    rw [h2] at h
    cases h

theorem rstripL_idem (l : PyStr) : rstripL (rstripL l) = rstripL l := by
  rw [rstripL, rstripL, List.reverse_reverse, dropWhile_idem]

theorem mem_catLines {ls : List PyStr} {l : PyStr} {c : Char}
    (hl : l ∈ ls) (hc : c ∈ l) : c ∈ catLines ls := by
  induction ls with
  | nil => simp at hl
  | cons x xs ih =>
    rw [catLines_cons]
    rcases List.mem_cons.mp hl with rfl | hl
    · exact List.mem_append_left _ hc
    · exact List.mem_append_right _ (List.mem_cons_of_mem _ (ih hl))

theorem pyStrip_startsNonWs {s : PyStr} (h : startsNonWs s = true) :
    pyStrip s = rstripL s := by
  cases s with
  | nil => simp [startsNonWs] at h
  | cons c cs =>
    simp only [startsNonWs, Bool.not_eq_true'] at h
    rw [pyStrip, rstripL, List.dropWhile_cons, h]
    simp

theorem startsNonWs_catLines {l₀ : PyStr} (ls : List PyStr)
    (h : startsNonWs l₀ = true) :
    startsNonWs (catLines (l₀ :: ls)) = true := by
  cases l₀ with
  | nil => simp [startsNonWs] at h
  | cons c cs =>
    rw [catLines_cons]
    exact h

theorem rstripL_catLines_blank {ls : List PyStr} {l : PyStr}
    (hb : blankL l = true) :
    rstripL (catLines (ls ++ [l])) = rstripL (catLines ls) := by
  rw [catLines_append, rstripL, List.reverse_append, dropWhile_append_all]
  · rfl
  · intro x hx
    have h1 : catLines [l] = l ++ ['\n'] := by simp [catLines]
    rw [h1, List.mem_reverse] at hx
    rcases List.mem_append.mp hx with hx | hx
    · rw [blankL, List.all_eq_true] at hb
      exact hb x hx
    · rcases List.mem_singleton.mp hx with rfl
      decide

theorem rstripL_catLines_nonblank {ls : List PyStr} {l : PyStr}
    (hb : blankL l = false) :
    rstripL (catLines (ls ++ [l])) = catLines ls ++ rstripL l := by
  have h1 : catLines [l] = l ++ ['\n'] := by simp [catLines]
  have h2 : (catLines (ls ++ [l])).reverse =
      '\n' :: (l.reverse ++ (catLines ls).reverse) := by
    rw [catLines_append, h1, List.reverse_append, List.reverse_append]
    simp
  have hne : l.reverse.dropWhile pyIsSpace ≠ [] := by
    have hex : ∃ c ∈ l, pyIsSpace c = false := by
      rw [blankL, List.all_eq_false] at hb
      obtain ⟨c, hc, hpc⟩ := hb
      exact ⟨c, hc, by simpa using hpc⟩
    obtain ⟨c, hc, hpc⟩ := hex
    exact dropWhile_ne_nil_of_exists ⟨c, by simpa using hc, hpc⟩
  rw [rstripL, h2, List.dropWhile_cons]
  simp only [show pyIsSpace '\n' = true from by decide, if_true]
  rw [dropWhile_append_stop _ hne, List.reverse_append, List.reverse_reverse]
  rfl

theorem breakFree_rstripL {l : PyStr} (h : breakFree l = true) :
    breakFree (rstripL l) = true := by
  rw [breakFree, List.all_eq_true]
  intro c hc
  rw [breakFree, List.all_eq_true] at h
  exact h c (mem_rstripL hc)

theorem trimTrail_append_blank {ys : List PyStr} {l : PyStr}
    (hb : blankL l = true) :
    trimTrail (ys ++ [l]) = trimTrail ys := by
  rw [trimTrail, trimTrail, List.reverse_append]
  simp only [List.reverse_cons, List.reverse_nil, List.nil_append,
    List.singleton_append, List.dropWhile_cons, hb, if_true]

theorem trimTrail_append_nonblank {ys : List PyStr} {l : PyStr}
    (hb : blankL l = false) :
    trimTrail (ys ++ [l]) = ys ++ [rstripL l] := by
  rw [trimTrail, List.reverse_append]
  simp only [List.reverse_cons, List.reverse_nil, List.nil_append,
    List.singleton_append, List.dropWhile_cons, hb, Bool.false_eq_true, if_false]
  simp

theorem trimTrail_cons {x : PyStr} {ys : List PyStr}
    (h : ∃ l ∈ ys, blankL l = false) :
    trimTrail (x :: ys) = x :: trimTrail ys := by
  have hrev : ∃ l ∈ ys.reverse, blankL l = false := by
    obtain ⟨l, hl, hbl⟩ := h
    exact ⟨l, by simpa using hl, hbl⟩
  have hne : ys.reverse.dropWhile blankL ≠ [] := dropWhile_ne_nil_of_exists hrev
  rw [trimTrail, trimTrail, List.reverse_cons, dropWhile_append_stop _ hne]
  cases hd : ys.reverse.dropWhile blankL with
  | nil => exact absurd hd hne
  | cons m ms => simp

theorem trimTrail_append_left {ys zs : List PyStr}
    (h : ∃ l ∈ zs, blankL l = false) :
    trimTrail (ys ++ zs) = ys ++ trimTrail zs := by
  induction ys with
  | nil => simp
  | cons y ys ih =>
    have h2 : ∃ l ∈ ys ++ zs, blankL l = false := by
      obtain ⟨l, hl, hbl⟩ := h
      exact ⟨l, List.mem_append_right _ hl, hbl⟩
    rw [List.cons_append, trimTrail_cons h2, ih]
    rfl

theorem trimTrail_idem (bs : List PyStr) :
    trimTrail (trimTrail bs) = trimTrail bs := by
  cases hd : bs.reverse.dropWhile blankL with
  | nil =>
    have h1 : trimTrail bs = [] := by rw [trimTrail, hd]
    rw [h1]
    rfl
  | cons m ms =>
    have hm : blankL m = false := head_dropWhile_false hd
    have h1 : trimTrail bs = (rstripL m :: ms).reverse := by rw [trimTrail, hd]
    rw [h1, trimTrail, List.reverse_reverse, List.dropWhile_cons,
      rstripL_not_blank hm]
    simp [rstripL_idem]

theorem trimTrail_exists_nonblank {bs : List PyStr}
    (h : ∃ l ∈ bs, blankL l = false) :
    ∃ l ∈ trimTrail bs, blankL l = false := by
  have hrev : ∃ l ∈ bs.reverse, blankL l = false := by
    obtain ⟨l, hl, hbl⟩ := h
    exact ⟨l, by simpa using hl, hbl⟩
  cases hd : bs.reverse.dropWhile blankL with
  | nil => exact absurd hd (dropWhile_ne_nil_of_exists hrev)
  | cons m ms =>
    have hm : blankL m = false := head_dropWhile_false hd
    refine ⟨rstripL m, ?_, rstripL_not_blank hm⟩
    rw [trimTrail, hd]
    simp

theorem pyStrip_catLines_headD {ls : List PyStr} (hne : ls ≠ [])
    (hh : startsNonWs (ls.headD []) = true) :
    pyStrip (catLines ls) = rstripL (catLines ls) := by
  cases ls with
  | nil => exact absurd rfl hne
  | cons a as => exact pyStrip_startsNonWs (startsNonWs_catLines as (by simpa using hh))

theorem pySplitlines_pyStrip_catLines (ls : List PyStr)
    (hbf : ∀ l ∈ ls, breakFree l = true)
    (hh : startsNonWs (ls.headD []) = true)
    (hnb : ∃ l ∈ ls, blankL l = false) :
    pySplitlines (pyStrip (catLines ls)) = trimTrail ls := by
  induction ls using List.reverseRecOn with
  | nil => simp at hnb
  | append_singleton ys l ih =>
    cases hbl : blankL l with
    | true =>
      have hys : ∃ x ∈ ys, blankL x = false := by
        obtain ⟨x, hx, hbx⟩ := hnb
        rcases List.mem_append.mp hx with hx | hx
        · exact ⟨x, hx, hbx⟩
        · rcases List.mem_singleton.mp hx with rfl
          rw [hbl] at hbx
          cases hbx
      have hysne : ys ≠ [] := by
        rintro rfl
        simp at hys
      have hh2 : startsNonWs (ys.headD []) = true := by
        cases ys with
        | nil => exact absurd rfl hysne
        | cons a as => simpa using hh
      rw [pyStrip_catLines_headD (by simp) hh, rstripL_catLines_blank hbl,
        ← pyStrip_catLines_headD hysne hh2]
      rw [ih (fun x hx => hbf x (List.mem_append_left _ hx)) hh2 hys,
        trimTrail_append_blank hbl]
    | false =>
      rw [pyStrip_catLines_headD (by simp) hh, rstripL_catLines_nonblank hbl]
      rw [pySplitlines_catLines_last ys (rstripL l)
        (fun x hx => hbf x (List.mem_append_left _ hx))
        (breakFree_rstripL (hbf l (List.mem_append_right _ (by simp))))
        (rstripL_ne_nil hbl)]
      rw [trimTrail_append_nonblank hbl]

theorem headerName?_mk {dn : PyStr} (h1 : dn ≠ [])
    (h2 : dn.all (fun c => !pyIsSpace c) = true) :
    headerName? (mkHeader dn) = some dn := by
  have hlen1 : 1 ≤ dn.length := by
    cases dn with
    | nil => exact absurd rfl h1
    | cons c cs => simp
  have hlen : (mkHeader dn).length = dn.length + 8 := by
    rw [mkHeader]
    simp
  have hsw : startsWithL "### ".data (mkHeader dn) = true := by
    rw [mkHeader, List.append_assoc]
    exact startsWithL_append _ _
  have hdrop : (mkHeader dn).drop ((mkHeader dn).length - 4) = " ###".data := by
    rw [hlen, mkHeader]
    rw [show dn.length + 8 - 4 = ("### ".data ++ dn).length from by simp]
    exact List.drop_left _ _
  have hmid : ((mkHeader dn).drop 4).take ((mkHeader dn).length - 8) = dn := by
    rw [hlen, mkHeader, List.append_assoc]
    rw [show (4 : Nat) = ("### ".data).length from rfl]
    rw [List.drop_left]
    rw [show dn.length + 8 - 8 = dn.length from by omega]
    exact List.take_left _ _
  rw [headerName?, if_pos ⟨hsw, by omega, hdrop⟩, hmid, if_pos h2]

theorem headerName?_not_startsWith {l : PyStr}
    (h : startsWithL "### ".data l = false) : headerName? l = none := by
  rw [headerName?, if_neg]
  rintro ⟨hsw, -, -⟩
  rw [h] at hsw
  cases hsw

theorem blankL_mkHeader (dn : PyStr) : blankL (mkHeader dn) = false := by
  rw [blankL, List.all_eq_false]
  refine ⟨'#', ?_, by decide⟩
  rw [mkHeader]
  exact List.mem_append_left _ (List.mem_append_left _ (by decide))

theorem startsNonWs_mkHeader (dn : PyStr) : startsNonWs (mkHeader dn) = true := by
  have : mkHeader dn = '#' :: ("## ".data ++ dn ++ " ###".data) := rfl
  rw [this, startsNonWs]
  decide

theorem breakFree_mkHeader {dn : PyStr}
    (h2 : dn.all (fun c => !pyIsSpace c) = true) :
    breakFree (mkHeader dn) = true := by
  rw [breakFree, List.all_eq_true]
  intro c hc
  rw [mkHeader] at hc
  rcases List.mem_append.mp hc with hc | hc
  · rcases List.mem_append.mp hc with hc | hc
    · fin_cases hc <;> decide
    · rw [List.all_eq_true] at h2
      have := h2 c hc
      cases hbr : pyIsLineBreak c with
      | false => simp
      | true =>
        rw [pyIsSpace_of_break hbr] at this
        cases this
  · fin_cases hc <;> decide

theorem findMetadataAux_none (p : PyStr → Option α) (i : Nat) (ls : List PyStr)
    (h : ∀ l ∈ ls, p l = none) : findMetadataAux p i ls = [] := by
  induction ls generalizing i with
  | nil => rfl
  | cons l ls ih =>
    rw [findMetadataAux, h l (by simp)]
    exact ih _ (fun x hx => h x (by simp [hx]))

theorem mem_trimTrail {bl : List PyStr} {l : PyStr} (h : l ∈ trimTrail bl) :
    l ∈ bl ∨ ∃ m ∈ bl, l = rstripL m := by
  cases hd : bl.reverse.dropWhile blankL with
  | nil =>
    rw [trimTrail, hd] at h
    simp at h
  | cons m ms =>
    rw [trimTrail, hd] at h
    rw [List.mem_reverse] at h
    have hm : m ∈ bl := by
      have h1 : m ∈ bl.reverse.dropWhile blankL := by
        rw [hd]
        simp
      have := mem_of_mem_dropWhile h1
      simpa using this
    rcases List.mem_cons.mp h with rfl | hl
    · exact Or.inr ⟨m, hm, rfl⟩
    · left
      have h1 : l ∈ bl.reverse.dropWhile blankL := by
        rw [hd]
        exact List.mem_cons_of_mem _ hl
      have := mem_of_mem_dropWhile h1
      simpa using this

theorem pyStrip_ne_nil {s : PyStr} (h : ∃ c ∈ s, pyIsSpace c = false) :
    pyStrip s ≠ [] := by
  rw [pyStrip]
  obtain ⟨c, hc, hpc⟩ := h
  obtain ⟨d, hd, hpd⟩ := exists_mem_dropWhile ⟨c, hc, hpc⟩
  have h2 : ∃ e ∈ (s.dropWhile pyIsSpace).reverse, pyIsSpace e = false :=
    ⟨d, by simpa using hd, hpd⟩
  have h3 := dropWhile_ne_nil_of_exists h2
  simpa using h3

theorem parse_block (dn : PyStr) (bl : List PyStr) (h1 : dn ≠ [])
    (h2 : dn.all (fun c => !pyIsSpace c) = true)
    (h3 : ∀ l ∈ bl, breakFree l = true ∧ startsWithL "### ".data l = false)
    (h4 : ∃ l ∈ bl, blankL l = false) :
    Template.parse (catLines (mkHeader dn :: bl)) =
      .ok (Template.init dn (some (catLines (trimTrail bl)))) := by
  have hlines : pySplitlines (pyStrip (catLines (mkHeader dn :: bl))) =
      mkHeader dn :: trimTrail bl := by
    rw [pySplitlines_pyStrip_catLines (mkHeader dn :: bl) ?hbf ?hh ?hnb,
      trimTrail_cons h4]
    case hbf =>
      intro l hl
      rcases List.mem_cons.mp hl with rfl | hl
      · exact breakFree_mkHeader h2
      · exact (h3 l hl).1
    case hh => exact startsNonWs_mkHeader dn
    case hnb => exact ⟨mkHeader dn, by simp, blankL_mkHeader dn⟩
  have hhdrs : findMetadata headerName? (mkHeader dn :: trimTrail bl) =
      [(0, dn)] := by
    rw [findMetadata, findMetadataAux, headerName?_mk h1 h2]
    rw [findMetadataAux_none]
    intro l hl
    rcases mem_trimTrail hl with hl | ⟨m, hm, rfl⟩
    · exact headerName?_not_startsWith (h3 l hl).2
    · exact headerName?_not_startsWith (rstripL_startsWith_false (h3 m hm).2)
  have hbody : ∃ c ∈ catLines (trimTrail bl), pyIsSpace c = false := by
    obtain ⟨l, hl, hbl⟩ := trimTrail_exists_nonblank h4
    rw [blankL, List.all_eq_false] at hbl
    obtain ⟨c, hc, hpc⟩ := hbl
    exact ⟨c, mem_catLines hl hc, by simpa using hpc⟩
  rw [Template.parse]
  simp only [hlines, hhdrs, Nat.zero_add, List.drop_succ_cons, List.drop_zero]
  rw [if_neg (pyStrip_ne_nil hbody)]

theorem findMetadataAux_append (p : PyStr → Option α) (i : Nat)
    (xs ys : List PyStr) :
    findMetadataAux p i (xs ++ ys) =
      findMetadataAux p i xs ++ findMetadataAux p (i + xs.length) ys := by
  induction xs generalizing i with
  | nil => simp [findMetadataAux]
  | cons x xs ih =>
    cases hp : p x with
    | some a =>
      rw [List.cons_append, findMetadataAux, hp, findMetadataAux, hp, ih]
      simp only [List.cons_append, List.length_cons]
      rw [show i + 1 + xs.length = i + (xs.length + 1) from by omega]
    | none =>
      rw [List.cons_append, findMetadataAux, hp, findMetadataAux, hp, ih]
      simp only [List.length_cons]
      rw [show i + 1 + xs.length = i + (xs.length + 1) from by omega]

theorem linesOfBlocks_cons (dn : PyStr) (bl : List PyStr) (b : Block)
    (bs : List Block) :
    linesOfBlocks ((dn, bl) :: b :: bs) =
      (mkHeader dn :: (bl ++ [[]])) ++ linesOfBlocks (b :: bs) := by
  rw [linesOfBlocks]
  simp

theorem headerName?_none_of_blockLine {l : PyStr}
    (h : startsWithL "### ".data l = false) : headerName? l = none :=
  headerName?_not_startsWith h

theorem headerName?_nil : headerName? [] = none := by decide

theorem findMetadata_blocks (bs : List Block) (i : Nat)
    (hwf : ∀ b ∈ bs, BlockWf b) :
    findMetadataAux headerName? i (linesOfBlocks bs) = hdrPairs i bs := by
  induction bs generalizing i with
  | nil => rfl
  | cons b bs ih =>
    obtain ⟨dn, bl⟩ := b
    obtain ⟨h1, h2, h3, h4⟩ := hwf (dn, bl) (by simp)
    cases bs with
    | nil =>
      rw [linesOfBlocks, hdrPairs, findMetadataAux, headerName?_mk h1 h2,
        findMetadataAux_none _ _ bl (fun l hl => headerName?_not_startsWith (h3 l hl).2)]
    | cons b' bs' =>
      rw [linesOfBlocks_cons, List.cons_append, findMetadataAux,
        headerName?_mk h1 h2, findMetadataAux_append,
        findMetadataAux_none _ _ (bl ++ [[]]) ?hnone, hdrPairs]
      case hnone =>
        intro l hl
        rcases List.mem_append.mp hl with hl | hl
        · exact headerName?_not_startsWith (h3 l hl).2
        · rcases List.mem_singleton.mp hl with rfl
          exact headerName?_nil
      rw [ih _ (fun x hx => hwf x (by simp [hx]))]
      simp only [List.nil_append, List.length_append, List.length_cons,
        List.length_nil]
      rw [show i + 1 + (bl.length + (0 + 1)) = i + (bl.length + 2) from by omega]

theorem hdrPairs_cons_fst (i : Nat) (b : Block) (bs : List Block) :
    (hdrPairs i (b :: bs)).map Prod.fst =
      i :: (hdrPairs (i + (b.2.length + 2)) bs).map Prod.fst := by
  obtain ⟨dn, bl⟩ := b
  cases bs with
  | nil => rfl
  | cons b' bs' => rfl

theorem parseSpans_blocks (bs : List Block) (P : List PyStr)
    (hwf : ∀ b ∈ bs, BlockWf b) (hne : bs ≠ []) :
    TemplateList.parseSpans (P ++ linesOfBlocks bs)
        ((hdrPairs P.length bs).map Prod.fst) =
      .ok (bs.map (fun b => Template.init b.1 (some (catLines (trimTrail b.2))))) := by
  induction bs generalizing P with
  | nil => exact absurd rfl hne
  | cons b bs ih =>
    obtain ⟨dn, bl⟩ := b
    obtain ⟨h1, h2, h3, h4⟩ := hwf (dn, bl) (by simp)
    cases bs with
    | nil =>
      rw [hdrPairs]
      simp only [List.map_cons, List.map_nil]
      rw [TemplateList.parseSpans, linesOfBlocks, List.drop_left,
        parse_block dn bl h1 h2 h3 h4]
      rfl
    | cons b' bs' =>
      rw [hdrPairs_cons_fst, hdrPairs_cons_fst]
      rw [TemplateList.parseSpans]
      have hdrop : (P ++ linesOfBlocks ((dn, bl) :: b' :: bs')).drop P.length =
          linesOfBlocks ((dn, bl) :: b' :: bs') := List.drop_left _ _
      have htake : (linesOfBlocks ((dn, bl) :: b' :: bs')).take
          (P.length + (bl.length + 2) - P.length) =
          mkHeader dn :: (bl ++ [[]]) := by
        rw [show P.length + (bl.length + 2) - P.length = bl.length + 2 from by omega,
          linesOfBlocks_cons,
          show bl.length + 2 = (mkHeader dn :: (bl ++ [[]])).length from by simp]
        exact List.take_left _ _
      rw [hdrop, htake]
      have hblk : Template.parse (catLines (mkHeader dn :: (bl ++ [[]]))) =
          .ok (Template.init dn (some (catLines (trimTrail bl)))) := by
        rw [parse_block dn (bl ++ [[]]) h1 h2 ?h3b ?h4b,
          trimTrail_append_blank (show blankL [] = true from rfl)]
        case h3b =>
          intro l hl
          rcases List.mem_append.mp hl with hl | hl
          · exact h3 l hl
          · rcases List.mem_singleton.mp hl with rfl
            exact ⟨rfl, rfl⟩
        case h4b =>
          obtain ⟨l, hl, hbl⟩ := h4
          exact ⟨l, List.mem_append_left _ hl, hbl⟩
      have hrest : P ++ linesOfBlocks ((dn, bl) :: b' :: bs') =
          (P ++ (mkHeader dn :: (bl ++ [[]]))) ++ linesOfBlocks (b' :: bs') := by
        rw [linesOfBlocks_cons]
        simp
      have hlen2 : P.length + (bl.length + 2) =
          (P ++ (mkHeader dn :: (bl ++ [[]]))).length := by
        simp
      rw [hblk, hrest, hlen2, ← hdrPairs_cons_fst,
        ih _ (fun x hx => hwf x (by simp [hx])) (by simp)]
      simp only [List.map_cons]
      rfl

theorem charToNatOfNat {n : Nat} (h : n < 55296) : (Char.ofNat n).toNat = n := by
  rw [Char.ofNat, dif_pos (Or.inl (by omega))]
  rfl

theorem asciiLower_asciiUpper (c : Char) :
    asciiLower (asciiUpper c) = asciiLower c := by
  rw [asciiUpper]
  by_cases h : 97 ≤ c.toNat ∧ c.toNat ≤ 122
  · rw [if_pos h]
    have ht : (Char.ofNat (c.toNat - 32)).toNat = c.toNat - 32 :=
      charToNatOfNat (by omega)
    rw [asciiLower, asciiLower, ht, if_pos (by omega), if_neg (by omega),
      show c.toNat - 32 + 32 = c.toNat from by omega, Char.ofNat_toNat]
  · rw [if_neg h]

theorem asciiLower_idem (c : Char) : asciiLower (asciiLower c) = asciiLower c := by
  by_cases h : 65 ≤ c.toNat ∧ c.toNat ≤ 90
  · have h1 : asciiLower c = Char.ofNat (c.toNat + 32) := by
      rw [asciiLower, if_pos h]
    have ht : (Char.ofNat (c.toNat + 32)).toNat = c.toNat + 32 :=
      charToNatOfNat (by omega)
    rw [h1, asciiLower, ht, if_neg (by omega)]
  · have h1 : asciiLower c = c := by rw [asciiLower, if_neg h]
    rw [h1, h1]

theorem pyIsSpace_asciiLower (c : Char) :
    pyIsSpace (asciiLower c) = pyIsSpace c := by
  rw [asciiLower]
  by_cases h : 65 ≤ c.toNat ∧ c.toNat ≤ 90
  · rw [if_pos h]
    have ht : (Char.ofNat (c.toNat + 32)).toNat = c.toNat + 32 :=
      charToNatOfNat (by omega)
    rw [pyIsSpace, pyIsSpace, ht, decide_eq_decide]
    omega
  · rw [if_neg h]

theorem pyIsSpace_asciiUpper (c : Char) :
    pyIsSpace (asciiUpper c) = pyIsSpace c := by
  rw [asciiUpper]
  by_cases h : 97 ≤ c.toNat ∧ c.toNat ≤ 122
  · rw [if_pos h]
    have ht : (Char.ofNat (c.toNat - 32)).toNat = c.toNat - 32 :=
      charToNatOfNat (by omega)
    rw [pyIsSpace, pyIsSpace, ht, decide_eq_decide]
    omega
  · rw [if_neg h]

theorem pyLower_idem (s : PyStr) : pyLower (pyLower s) = pyLower s := by
  induction s with
  | nil => rfl
  | cons c cs ih =>
    simp only [pyLower, List.map_cons] at ih ⊢
    rw [asciiLower_idem]
    exact congrArg _ ih

theorem pyLower_capitalize_lower (s : PyStr) :
    pyLower (pyCapitalize (pyLower s)) = pyLower s := by
  cases s with
  | nil => rfl
  | cons c cs =>
    simp only [pyLower, pyCapitalize, List.map_cons, List.map_map]
    rw [asciiLower_asciiUpper, asciiLower_idem]
    refine congrArg _ ?_
    have hfun : ∀ x ∈ cs, (asciiLower ∘ asciiLower ∘ asciiLower) x = asciiLower x := by
      intro x _
      simp only [Function.comp_apply]
      rw [asciiLower_idem, asciiLower_idem]
    exact List.map_congr_left hfun

theorem pyLower_ne_nil {s : PyStr} (h : s ≠ []) : pyLower s ≠ [] := by
  cases s with
  | nil => exact absurd rfl h
  | cons c cs => simp [pyLower]

theorem pyCapitalize_ne_nil {s : PyStr} (h : s ≠ []) : pyCapitalize s ≠ [] := by
  cases s with
  | nil => exact absurd rfl h
  | cons c cs => simp [pyCapitalize]

theorem all_nonspace_pyLower {s : PyStr}
    (h : s.all (fun c => !pyIsSpace c) = true) :
    (pyLower s).all (fun c => !pyIsSpace c) = true := by
  rw [List.all_eq_true] at h ⊢
  intro c hc
  rw [pyLower, List.mem_map] at hc
  obtain ⟨d, hd, rfl⟩ := hc
  simp only [Bool.not_eq_true']
  rw [pyIsSpace_asciiLower]
  simpa using h d hd

theorem all_nonspace_pyCapitalize {s : PyStr}
    (h : s.all (fun c => !pyIsSpace c) = true) :
    (pyCapitalize s).all (fun c => !pyIsSpace c) = true := by
  cases s with
  | nil => rfl
  | cons c cs =>
    rw [List.all_eq_true] at h ⊢
    intro x hx
    rw [pyCapitalize] at hx
    rcases List.mem_cons.mp hx with rfl | hx
    · simp only [Bool.not_eq_true']
      rw [pyIsSpace_asciiUpper]
      simpa using h c (by simp)
    · rw [List.mem_map] at hx
      obtain ⟨d, hd, rfl⟩ := hx
      simp only [Bool.not_eq_true']
      rw [pyIsSpace_asciiLower]
      simpa using h d (by simp [hd])

theorem catLines_blank_tail (bl : List PyStr) (X : PyStr) :
    catLines bl ++ '\n' :: X = catLines (bl ++ [[]]) ++ X := by
  induction bl with
  | nil => rfl
  | cons l ls ih =>
    rw [List.cons_append, catLines_cons, catLines_cons, List.append_assoc,
      List.append_assoc]
    exact congrArg _ (congrArg _ ih)

theorem catLines_blank_sep (h : PyStr) (bl : List PyStr) (X : PyStr) :
    catLines (h :: bl) ++ '\n' :: X = catLines (h :: (bl ++ [[]])) ++ X := by
  rw [catLines_cons, catLines_cons, List.append_assoc, List.append_assoc,
    List.cons_append, List.cons_append]
  exact congrArg _ (congrArg _ (catLines_blank_tail bl X))

theorem renderAll_pairs (qs : List (PyStr × List PyStr)) :
    TemplateList.renderAll (qs.map templateOfPair) =
      some ((qs.map blockOfPair).map (fun b => catLines (mkHeader b.1 :: b.2))) := by
  induction qs with
  | nil => rfl
  | cons q qs ih =>
    have hs : (templateOfPair q).strRes =
        some (catLines (mkHeader (pyCapitalize (pyLower q.1)) :: q.2)) := rfl
    simp only [List.map_cons, TemplateList.renderAll, hs, ih, blockOfPair]

theorem joinSep_blocks (bs : List Block) :
    joinSep (bs.map (fun b => catLines (mkHeader b.1 :: b.2))) =
      catLines (linesOfBlocks bs) := by
  induction bs with
  | nil => rfl
  | cons b bs ih =>
    cases bs with
    | nil =>
      obtain ⟨dn, bl⟩ := b
      rfl
    | cons b' bs' =>
      obtain ⟨dn, bl⟩ := b
      have hj : joinSep (catLines (mkHeader dn :: bl) ::
          catLines (mkHeader b'.1 :: b'.2) ::
          bs'.map (fun b => catLines (mkHeader b.1 :: b.2))) =
          catLines (mkHeader dn :: bl) ++ '\n' ::
            joinSep (catLines (mkHeader b'.1 :: b'.2) ::
              bs'.map (fun b => catLines (mkHeader b.1 :: b.2))) := rfl
      rw [List.map_cons, List.map_cons, hj,
        show (catLines (mkHeader b'.1 :: b'.2) ::
          bs'.map (fun b => catLines (mkHeader b.1 :: b.2))) =
          ((b' :: bs').map (fun b => catLines (mkHeader b.1 :: b.2))) from by
          rw [List.map_cons],
        ih, linesOfBlocks_cons, catLines_append]
      exact catLines_blank_sep (mkHeader dn) bl (catLines (linesOfBlocks (b' :: bs')))

theorem linesOfBlocks_breakFree {bs : List Block} (hwf : ∀ b ∈ bs, BlockWf b) :
    ∀ l ∈ linesOfBlocks bs, breakFree l = true := by
  induction bs with
  | nil => simp [linesOfBlocks]
  | cons b bs ih =>
    obtain ⟨dn, bl⟩ := b
    obtain ⟨h1, h2, h3, h4⟩ := hwf (dn, bl) (by simp)
    cases bs with
    | nil =>
      intro l hl
      rw [linesOfBlocks] at hl
      rcases List.mem_cons.mp hl with rfl | hl
      · exact breakFree_mkHeader h2
      · exact (h3 l hl).1
    | cons b' bs' =>
      intro l hl
      rw [linesOfBlocks_cons] at hl
      rcases List.mem_append.mp hl with hl | hl
      · rcases List.mem_cons.mp hl with rfl | hl
        · exact breakFree_mkHeader h2
        · rcases List.mem_append.mp hl with hl | hl
          · exact (h3 l hl).1
          · rcases List.mem_singleton.mp hl with rfl
            rfl
      · exact ih (fun x hx => hwf x (by simp [hx])) l hl

theorem linesOfBlocks_headD (b : Block) (bs : List Block) :
    startsNonWs ((linesOfBlocks (b :: bs)).headD []) = true := by
  obtain ⟨dn, bl⟩ := b
  cases bs with
  | nil =>
    rw [linesOfBlocks, List.headD_cons]
    exact startsNonWs_mkHeader dn
  | cons b' bs' =>
    rw [linesOfBlocks_cons, List.cons_append, List.headD_cons]
    exact startsNonWs_mkHeader dn

theorem linesOfBlocks_exists_nonblank (b : Block) (bs : List Block) :
    ∃ l ∈ linesOfBlocks (b :: bs), blankL l = false := by
  obtain ⟨dn, bl⟩ := b
  refine ⟨mkHeader dn, ?_, blankL_mkHeader dn⟩
  cases bs with
  | nil => rw [linesOfBlocks]; simp
  | cons b' bs' => rw [linesOfBlocks]; simp

theorem trimTrail_linesOfBlocks (bs : List Block) (hwf : ∀ b ∈ bs, BlockWf b) :
    trimTrail (linesOfBlocks bs) = linesOfBlocks (trimLastBlock bs) := by
  induction bs with
  | nil => rfl
  | cons b bs ih =>
    obtain ⟨dn, bl⟩ := b
    obtain ⟨h1, h2, h3, h4⟩ := hwf (dn, bl) (by simp)
    cases bs with
    | nil =>
      rw [linesOfBlocks, trimTrail_cons h4, trimLastBlock, linesOfBlocks]
    | cons b' bs' =>
      rw [linesOfBlocks_cons, List.cons_append, trimTrail_cons ?hx,
        trimTrail_append_left (linesOfBlocks_exists_nonblank b' bs'),
        ih (fun x hx => hwf x (by simp [hx])), trimLastBlock]
      case hx =>
        obtain ⟨l, hl, hbl⟩ := linesOfBlocks_exists_nonblank b' bs'
        exact ⟨l, List.mem_append_right _ hl, hbl⟩
      obtain ⟨c₀, cs₀, hX⟩ : ∃ c₀ cs₀, trimLastBlock (b' :: bs') = c₀ :: cs₀ := by
        cases bs' with
        | nil =>
          obtain ⟨a, bb⟩ := b'
          exact ⟨_, _, rfl⟩
        | cons b'' bs'' => exact ⟨_, _, rfl⟩
      rw [hX, linesOfBlocks_cons, List.cons_append]

theorem trimLastBlock_wf {bs : List Block} (hwf : ∀ b ∈ bs, BlockWf b) :
    ∀ b ∈ trimLastBlock bs, BlockWf b := by
  induction bs with
  | nil => simp [trimLastBlock]
  | cons b bs ih =>
    cases bs with
    | nil =>
      obtain ⟨dn, bl⟩ := b
      obtain ⟨h1, h2, h3, h4⟩ := hwf (dn, bl) (by simp)
      intro x hx
      rw [trimLastBlock] at hx
      rcases List.mem_singleton.mp hx with rfl
      refine ⟨h1, h2, ?_, trimTrail_exists_nonblank h4⟩
      intro l hl
      rcases mem_trimTrail hl with hl | ⟨m, hm, rfl⟩
      · exact h3 l hl
      · exact ⟨breakFree_rstripL (h3 m hm).1, rstripL_startsWith_false (h3 m hm).2⟩
    | cons b' bs' =>
      intro x hx
      rw [trimLastBlock] at hx
      rcases List.mem_cons.mp hx with h | h
      · rw [h]
        exact hwf b (by simp)
      · exact ih (fun y hy => hwf y (by simp [hy])) x h

theorem trimLastBlock_map_fst (bs : List Block) :
    (trimLastBlock bs).map Prod.fst = bs.map Prod.fst := by
  induction bs with
  | nil => rfl
  | cons b bs ih =>
    cases bs with
    | nil =>
      obtain ⟨dn, bl⟩ := b
      rfl
    | cons b' bs' =>
      rw [trimLastBlock, List.map_cons, List.map_cons, ih]

theorem beqL_iff_names (ts us : List Template) :
    TemplateList.beqL ts us = true ↔
      ts.map (fun t => pyLower t.name) = us.map (fun u => pyLower u.name) := by
  induction ts generalizing us with
  | nil => cases us <;> simp [TemplateList.beqL]
  | cons t ts ih =>
    cases us with
    | nil => simp [TemplateList.beqL]
    | cons u us =>
      simp only [TemplateList.beqL, Bool.and_eq_true, List.map_cons,
        List.cons.injEq]
      rw [ih]
      constructor
      · rintro ⟨hb, h2⟩
        refine ⟨?_, h2⟩
        rw [Template.beq] at hb
        exact eq_of_beq hb
      · rintro ⟨h1, h2⟩
        exact ⟨by simp [Template.beq, h1], h2⟩

theorem firstIdx_some_lt {p : α → Bool} {xs : List α} {i : Nat}
    (h : firstIdx p xs = some i) : i < xs.length := by
  induction xs generalizing i with
  | nil => simp [firstIdx] at h
  | cons x xs ih =>
    simp only [firstIdx] at h
    by_cases hp : p x
    · simp [hp] at h
      simp
      omega
    · simp [hp] at h
      obtain ⟨j, hj, rfl⟩ := h
      have := ih hj
      simp
      omega

theorem firstIdx_set_self {p : α → Bool} {xs : List α} {i : Nat} {a : α}
    (h : firstIdx p xs = some i) (ha : p a = true) :
    firstIdx p (xs.set i a) = some i := by
  induction xs generalizing i with
  | nil => simp [firstIdx] at h
  | cons x xs ih =>
    simp only [firstIdx] at h
    by_cases hp : p x
    · simp [hp] at h
      subst h
      simp [List.set, firstIdx, ha]
    · simp [hp] at h
      obtain ⟨j, hj, rfl⟩ := h
      simp [List.set, firstIdx, hp, ih hj]

theorem firstIdx_append_none {p : α → Bool} {xs : List α} {a : α}
    (h : firstIdx p xs = none) (ha : p a = true) :
    firstIdx p (xs ++ [a]) = some xs.length := by
  induction xs with
  | nil => simp [firstIdx, ha]
  | cons x xs ih =>
    simp only [firstIdx] at h
    by_cases hp : p x
    · simp [hp] at h
    · simp [hp] at h
      simp [firstIdx, hp, ih h]

theorem set_append_length (xs : List α) (a b : α) :
    (xs ++ [a]).set xs.length b = xs ++ [b] := by
  induction xs with
  | nil => rfl
  | cons x xs ih => simp [List.set, ih]

theorem getElem?_set_self {xs : List α} {i : Nat} {a : α} (h : i < xs.length) :
    (xs.set i a)[i]? = some a := by
  induction xs generalizing i with
  | nil => simp at h
  | cons x xs ih =>
    cases i with
    | zero => simp
    | succ j =>
      simp only [List.set]
      simp only [List.length_cons] at h
      simpa using ih (by omega)

theorem getElem?_set_ne {xs : List α} {i j : Nat} {a : α} (h : j ≠ i) :
    (xs.set i a)[j]? = xs[j]? := by
  induction xs generalizing i j with
  | nil => simp
  | cons x xs ih =>
    cases i with
    | zero =>
      cases j with
      | zero => exact absurd rfl h
      | succ k => simp
    | succ i' =>
      cases j with
      | zero => simp
      | succ k =>
        simp only [List.set]
        simpa using ih (by omega)

/-! ## Claims C1, C2, C4, C10: divergences between code and spec/tests -/

/-- C1: the round-trip `Gitignore.loads(d.dumps()) == d` FAILS at the
document with an empty template collection, which the claim includes:
`dumps` of the empty document produces only the banners with blank lines
between them, and `loads` of that text raises
`ParseError("Input is invalid: Missing .gitignore body")` instead of
returning the empty document (the repository's own test
`test_gitignore_write_and_read_empty_file` expects the round-trip to
succeed). -/
theorem c1_empty_document_roundtrip_fails :
    Gitignore.dumpsRes ⟨[]⟩ = some emptyDocText ∧
    Gitignore.loads emptyDocText =
      .error "Input is invalid: Missing .gitignore body".data := by
  decide

/-- C2: on input consisting of the header banner, a blank line, and the
footer banner — i.e. the content after the header is blank —
`Gitignore.loads` does NOT return an empty document: it raises
`ParseError("Input is invalid: Missing .gitignore body")`, contradicting
the spec's do-not-error policy for placeholder files with zero
templates. -/
theorem c2_blank_content_raises :
    Gitignore.loads ("# TEXT BELOW THIS LINE WAS AUTOMATICALLY GENERATED\n\n" ++
        "# TEXT ABOVE THIS LINE WAS AUTOMATICALLY GENERATED\n").data =
      .error "Input is invalid: Missing .gitignore body".data := by
  decide

/-- C4: `Template.parse` on a header-only input (here the header of the
test fixture `foo`) raises `ParseError` whose message is exactly
`"Missing body"` — the template's name does NOT appear in the message
(checked with the same case-insensitive substring containment the
repository's test `test_template_error_parse_missing_body` asserts),
contradicting the claimed message shape `"missing body for '<name>'"`. -/
theorem c4_missing_body_message_lacks_name :
    Template.parse "### Foo ###".data = .error "Missing body".data ∧
    containsSub (pyLower "foo".data) (pyLower "Missing body".data) = false := by
  decide

/-- C10: `Template.__ne__` and `TemplateList.__ne__` are both
`return self != other`, which re-invokes the same `__ne__`; under the
fuel semantics no amount of fuel produces a result, i.e. `t1 != t2`
never terminates (a `RecursionError` in Python), for every pair of
operands — contradicting the claim (and the repository's tests
`test_template_not_equal` / `test_template_list_not_equal`, which expect
`!=` to behave as the negation of `==`). -/
theorem c10_ne_never_terminates :
    ∀ (t u : Template) (xs ys : List Template) (n : Nat),
      Template.neFuel t u n = none ∧ TemplateList.neFuel xs ys n = none := by
  intro t u xs ys n
  induction n with
  | zero => exact ⟨rfl, rfl⟩
  | succ k ih => exact ⟨ih.1, ih.2⟩

/-! ## Claim C6: replace semantics -/

/-- C6: if the list contains an element with the same canonical
(lower-cased) name as `t` — first such index `i` — then `replace`
substitutes `t` at `i`, preserving the length, every other element, and
the position; otherwise it appends `t`; and a second `replace` with the
same `t` changes nothing. -/
theorem c6_replace_semantics (xs : List Template) (t : Template) :
    (∀ i, firstIdx (fun u => Template.beq u t) xs = some i →
      TemplateList.replace xs t = xs.set i t ∧
      (TemplateList.replace xs t).length = xs.length ∧
      (TemplateList.replace xs t)[i]? = some t ∧
      ∀ j, j ≠ i → (TemplateList.replace xs t)[j]? = xs[j]?) ∧
    (firstIdx (fun u => Template.beq u t) xs = none →
      TemplateList.replace xs t = xs ++ [t]) ∧
    TemplateList.replace (TemplateList.replace xs t) t =
      TemplateList.replace xs t := by
  have hbeq : Template.beq t t = true := by
    simp [Template.beq]
  refine ⟨?_, ?_, ?_⟩
  · intro i hi
    have hrepl : TemplateList.replace xs t = xs.set i t := by
      simp [TemplateList.replace, hi]
    refine ⟨hrepl, ?_, ?_, ?_⟩
    · simp [hrepl]
    · rw [hrepl]
      exact getElem?_set_self (firstIdx_some_lt hi)
    · intro j hj
      rw [hrepl]
      exact getElem?_set_ne hj
  · intro h
    simp [TemplateList.replace, h]
  · cases hfi : firstIdx (fun u => Template.beq u t) xs with
    | some i =>
      have h1 : TemplateList.replace xs t = xs.set i t := by
        simp [TemplateList.replace, hfi]
      have h2 : firstIdx (fun u => Template.beq u t) (xs.set i t) = some i :=
        firstIdx_set_self hfi hbeq
      rw [h1]
      simp [TemplateList.replace, h2, List.set_set]
    | none =>
      have h1 : TemplateList.replace xs t = xs ++ [t] := by
        simp [TemplateList.replace, hfi]
      have h2 : firstIdx (fun u => Template.beq u t) (xs ++ [t]) =
          some xs.length := firstIdx_append_none hfi hbeq
      rw [h1]
      simp [TemplateList.replace, h2, set_append_length]

/-- Witness for C6 at a concrete input: the list `[go]` and a template
named `GO` (same canonical name): `replace` substitutes in place at
index 0 and is idempotent. -/
theorem c6_replace_semantics_witness :
    TemplateList.replace [Template.init "go".data none]
        (Template.init "GO".data (some "*.o\n".data)) =
      [Template.init "go".data none].set 0
        (Template.init "GO".data (some "*.o\n".data)) ∧
    TemplateList.replace
        (TemplateList.replace [Template.init "go".data none]
          (Template.init "GO".data (some "*.o\n".data)))
        (Template.init "GO".data (some "*.o\n".data)) =
      TemplateList.replace [Template.init "go".data none]
        (Template.init "GO".data (some "*.o\n".data)) := by
  have h := c6_replace_semantics [Template.init "go".data none]
    (Template.init "GO".data (some "*.o\n".data))
  exact ⟨(h.1 0 (by decide)).1, h.2.2⟩

/-! ## Claim C7: case-insensitive identity -/

/-- C7: templates constructed from names that agree up to letter case
store the same name, are equal under `Template.__eq__`, hash identically
(same hash key), and compare identically under the ordering against any
third template; and `TemplateList.contains(term)` keeps any member whose
name agrees with the term up to case. -/
theorem c7_case_insensitive_identity :
    (∀ n m : PyStr, pyLower n = pyLower m → ∀ b b' : Option PyStr,
      (Template.init n b).name = (Template.init m b').name ∧
      Template.beq (Template.init n b) (Template.init m b') = true ∧
      Template.hashKey (Template.init n b) = Template.hashKey (Template.init m b') ∧
      (∀ u : Template,
        Template.lt (Template.init n b) u = Template.lt (Template.init m b') u ∧
        Template.lt u (Template.init n b) = Template.lt u (Template.init m b'))) ∧
    (∀ (xs : List Template) (t : Template) (term : PyStr),
      t ∈ xs → pyLower t.name = pyLower term →
      t ∈ TemplateList.containsT xs term) := by
  constructor
  · intro n m h b b'
    have hname : (Template.init n b).name = (Template.init m b').name := by
      simp [Template.init, h]
    refine ⟨hname, ?_, ?_, ?_⟩
    · simp [Template.beq, hname]
    · simp [Template.hashKey, hname]
    · intro u
      constructor <;> simp [Template.lt, hname]
  · intro xs t term hmem hcase
    simp only [TemplateList.containsT, List.mem_filter]
    refine ⟨hmem, ?_⟩
    rw [← hcase]
    exact containsSub_self (pyLower t.name)

/-- Witness for C7 at concrete inputs: `Template("Go") == Template("go")`
with identical name/hash key, and `contains("GO")` on a list holding a
template named `go` keeps it. -/
theorem c7_case_insensitive_identity_witness :
    Template.beq (Template.init "Go".data none) (Template.init "go".data none) = true ∧
    Template.hashKey (Template.init "Go".data none) =
      Template.hashKey (Template.init "go".data none) ∧
    Template.init "go".data none ∈
      TemplateList.containsT [Template.init "go".data none] "GO".data := by
  refine ⟨?_, ?_, ?_⟩
  · exact (c7_case_insensitive_identity.1 "Go".data "go".data (by decide)
      none none).2.1
  · exact (c7_case_insensitive_identity.1 "Go".data "go".data (by decide)
      none none).2.2.1
  · exact c7_case_insensitive_identity.2 [Template.init "go".data none]
      (Template.init "go".data none) "GO".data (by simp) (by decide)

/-! ## Claim C8: lazy body fetch is memoized (at most one fetch) -/

theorem bodyGet_unresolved_ok {t : Template}
    {fetch : PyStr → Except PyStr PyStr} {b : PyStr} {t' : Template} {k : Nat}
    (hnone : t.bodyOpt = none)
    (hok : Template.bodyGet t fetch = .ok (b, t', k)) :
    k = 1 ∧ t'.bodyOpt = some b := by
  simp only [Template.bodyGet, hnone] at hok
  cases hf : fetch (pyLower t.name) with
  | error e => simp [hf] at hok
  | ok response =>
    simp only [hf] at hok
    cases hp : Template.parse (Template.stripResponse response) with
    | error e => simp [hp] at hok
    | ok parsed =>
      simp only [hp] at hok
      obtain ⟨hb, ht, hk⟩ := by
        simpa using hok
      exact ⟨hk.symm, by rw [← ht, ← hb]⟩

/-- C8: reading `Template.body` on a resolved template returns the cached
string with zero fetches and unchanged state; a successful read on an
unresolved template performs exactly one fetch and caches the result; and
after any successful read, every subsequent read — under any catalog
client behaviour — returns the same string with zero fetches and
unchanged state. -/
theorem c8_body_fetch_memoized :
    (∀ (t : Template) (fetch : PyStr → Except PyStr PyStr) (b : PyStr),
      t.bodyOpt = some b → Template.bodyGet t fetch = .ok (b, t, 0)) ∧
    (∀ (t : Template) (fetch : PyStr → Except PyStr PyStr) (b : PyStr)
        (t' : Template) (k : Nat),
      t.bodyOpt = none → Template.bodyGet t fetch = .ok (b, t', k) →
      k = 1 ∧ t'.bodyOpt = some b) ∧
    (∀ (t : Template) (fetch fetch' : PyStr → Except PyStr PyStr) (b : PyStr)
        (t' : Template) (k : Nat),
      Template.bodyGet t fetch = .ok (b, t', k) →
      Template.bodyGet t' fetch' = .ok (b, t', 0)) := by
  refine ⟨?_, ?_, ?_⟩
  · intro t fetch b hb
    simp [Template.bodyGet, hb]
  · intro t fetch b t' k hnone hok
    exact bodyGet_unresolved_ok hnone hok
  · intro t fetch fetch' b t' k hok
    cases hres : t.bodyOpt with
    | some b₀ =>
      have : Template.bodyGet t fetch = .ok (b₀, t, 0) := by
        simp [Template.bodyGet, hres]
      rw [this] at hok
      obtain ⟨hb, ht, _⟩ := by simpa using hok
      subst hb
      rw [← ht]
      simp [Template.bodyGet, hres]
    | none =>
      have h1 := bodyGet_unresolved_ok hres hok
      simp [Template.bodyGet, h1.2]

/-- Witness for C8 at a concrete input: a template whose body was just
obtained by one successful fetch (of a catalog response carrying the
transport wrapper) answers every later read from the cache — even when
the catalog client now always fails. -/
theorem c8_body_fetch_memoized_witness :
    Template.bodyGet (Template.init "go".data (some "*.o\n".data))
        (fun _ => Except.error "Failed to connect".data) =
      .ok ("*.o\n".data, Template.init "go".data (some "*.o\n".data), 0) := by
  have hok : Template.bodyGet (Template.init "go".data none)
      (fun name => if name = "go".data
        then Except.ok "w1\nw2\nw3\n### Go ###\n*.o\nw4\nw5".data
        else Except.error "Failed to fetch".data) =
      .ok ("*.o\n".data, Template.init "go".data (some "*.o\n".data), 1) := by
    decide
  exact c8_body_fetch_memoized.2.2 (Template.init "go".data none) _ _ _ _ _ hok

/-! ## Claim C9: the footer banner requirement -/

theorem findMetadataAux_length (p : PyStr → Option α) (i : Nat) (ls : List PyStr) :
    (findMetadataAux p i ls).length = ls.countP (fun l => (p l).isSome) := by
  induction ls generalizing i with
  | nil => rfl
  | cons l ls ih =>
    cases hp : p l with
    | some a => simp [findMetadataAux, hp, List.countP_cons, ih]
    | none => simp [findMetadataAux, hp, List.countP_cons, ih]

/-- C9 counterexample: an input that contains the header banner line
(twice) and no footer banner line, on which `Gitignore.loads` raises
`"Input is invalid: Multiple ignoro headers"` — a message that does not
mention the missing footer — because the multiple-headers check precedes
the missing-footer check. -/
theorem c9_two_headers_no_footer :
    Gitignore.loads ("# TEXT BELOW THIS LINE WAS AUTOMATICALLY GENERATED\n" ++
        "# TEXT BELOW THIS LINE WAS AUTOMATICALLY GENERATED\n").data =
      .error "Input is invalid: Multiple ignoro headers".data ∧
    containsSub "footer".data
      "Input is invalid: Multiple ignoro headers".data = false := by
  decide

/-- C9 (amended): `dumps` always emits both banners — the output starts
with the two-line header banner and ends with the footer banner — and on
every input containing the header banner line exactly once and the footer
banner line not at all, `loads` raises a `ParseError` whose message
mentions the missing ignoro footer. -/
theorem c9_footer_required :
    (∀ text : PyStr,
      (pySplitlines text).countP (fun l => decide (l = docHeaderLine)) = 1 →
      (pySplitlines text).countP (fun l => decide (l = docFooterLine)) = 0 →
      Gitignore.loads text =
        .error "Input is invalid: Missing ignoro footer".data ∧
      containsSub "footer".data
        "Input is invalid: Missing ignoro footer".data = true) ∧
    (∀ (g : Gitignore) (text : PyStr), Gitignore.dumpsRes g = some text →
      startsWithL Gitignore.headerText text = true ∧
      ∃ pre, text = pre ++ Gitignore.footerText) := by
  constructor
  · intro text hH hF
    have hcts : ∀ d : PyStr,
        (fun l => (if l = d then some () else none).isSome) =
        (fun l => decide (l = d)) := by
      intro d
      funext l
      by_cases h : l = d <;> simp [h]
    have hHlen : ((findMetadata
        (fun l => if l = docHeaderLine then some () else none)
        (pySplitlines text)).map Prod.fst).length = 1 := by
      rw [List.length_map, findMetadata, findMetadataAux_length, hcts, hH]
    have hFlen : ((findMetadata
        (fun l => if l = docFooterLine then some () else none)
        (pySplitlines text)).map Prod.fst).length = 0 := by
      rw [List.length_map, findMetadata, findMetadataAux_length, hcts, hF]
    refine ⟨?_, by decide⟩
    rw [Gitignore.loads, Gitignore.parseDoc]
    simp only [hHlen, hFlen]
    norm_num
  · intro g text htext
    rw [Gitignore.dumpsRes] at htext
    cases hs : TemplateList.strRes g.template_list with
    | none => rw [hs] at htext; simp at htext
    | some s =>
      rw [hs, Option.map_some'] at htext
      have h2 : Gitignore.headerText ++ '\n' :: s ++ '\n' :: Gitignore.footerText =
          text := Option.some.inj htext
      subst h2
      constructor
      · exact startsWithL_append _ _
      · refine ⟨Gitignore.headerText ++ '\n' :: s ++ ['\n'], ?_⟩
        simp

/-- Witness for C9 (amended) at concrete inputs: a bare header banner
line (one header, no footer) makes `loads` fail with the missing-footer
message, and `dumps` of a one-template document starts with the header
banner and ends with the footer banner. -/
theorem c9_footer_required_witness :
    (Gitignore.loads "# TEXT BELOW THIS LINE WAS AUTOMATICALLY GENERATED".data =
        .error "Input is invalid: Missing ignoro footer".data ∧
      containsSub "footer".data
        "Input is invalid: Missing ignoro footer".data = true) ∧
    (startsWithL Gitignore.headerText
        ((Gitignore.dumpsRes ⟨[Template.init "go".data (some "*.o\n".data)]⟩).getD []) = true ∧
      ∃ pre, (Gitignore.dumpsRes ⟨[Template.init "go".data (some "*.o\n".data)]⟩).getD [] =
        pre ++ Gitignore.footerText) := by
  constructor
  · exact c9_footer_required.1
      "# TEXT BELOW THIS LINE WAS AUTOMATICALLY GENERATED".data
      (by decide) (by decide)
  · exact c9_footer_required.2 ⟨[Template.init "go".data (some "*.o\n".data)]⟩
      ((Gitignore.dumpsRes ⟨[Template.init "go".data (some "*.o\n".data)]⟩).getD [])
      (by decide)

/-! ## Claims C3 and C5: parse/serialize round-trips -/

theorem trimLastBlock_cons_shape (b : Block) (bs : List Block) :
    ∃ b₀ bs₀, trimLastBlock (b :: bs) = b₀ :: bs₀ := by
  cases bs with
  | nil =>
    obtain ⟨dn, bl⟩ := b
    exact ⟨_, _, rfl⟩
  | cons b' bs' => exact ⟨_, _, rfl⟩

/-- C3 counterexample: the empty TemplateCollection, which the claim
includes, does not round-trip: `str` of the empty collection is the empty
string, and `TemplateList.parse` raises
`ParseError("Missing template headers")` on it. -/
theorem c3_empty_collection_fails :
    TemplateList.strRes [] = some [] ∧
    TemplateList.parse [] = .error "Missing template headers".data := by
  decide

/-- C3 (amended): for every NONEMPTY list of in-memory templates, built
from raw names that are nonempty, ASCII, and free of whitespace (the
case mapping of `str.lower`/`str.capitalize` is modelled for ASCII) and
bodies that are newline-terminated line sequences containing no line
beginning with `"### "` and at least one non-blank line,
`TemplateList.parse(str(c))` succeeds and the result equals `c` under
`TemplateList.__eq__` (element-wise case-insensitive name equality). -/
theorem c3_roundtrip (qs : List (PyStr × List PyStr)) (hne : qs ≠ [])
    (hwf : ∀ q ∈ qs, q.1 ≠ [] ∧ q.1.all (fun c => !pyIsSpace c) = true ∧
      (∀ c ∈ q.1, c.toNat ≤ 127) ∧
      (∀ l ∈ q.2, breakFree l = true ∧ startsWithL "### ".data l = false) ∧
      (∃ l ∈ q.2, blankL l = false)) :
    ∃ text parsed,
      TemplateList.strRes (qs.map templateOfPair) = some text ∧
      TemplateList.parse text = .ok parsed ∧
      TemplateList.beqL parsed (qs.map templateOfPair) = true := by
  have hbswf : ∀ b ∈ qs.map blockOfPair, BlockWf b := by
    intro b hb
    rw [List.mem_map] at hb
    obtain ⟨q, hq, rfl⟩ := hb
    obtain ⟨h1, h2, -, h3, h4⟩ := hwf q hq
    exact ⟨pyCapitalize_ne_nil (pyLower_ne_nil h1),
      all_nonspace_pyCapitalize (all_nonspace_pyLower h2), h3, h4⟩
  obtain ⟨q₀, qs₀, rfl⟩ : ∃ q₀ qs₀, qs = q₀ :: qs₀ := by
    cases qs with
    | nil => exact absurd rfl hne
    | cons q₀ qs₀ => exact ⟨q₀, qs₀, rfl⟩
  have hbscons : (q₀ :: qs₀).map blockOfPair =
      blockOfPair q₀ :: qs₀.map blockOfPair := List.map_cons _ _ _
  refine ⟨catLines (linesOfBlocks ((q₀ :: qs₀).map blockOfPair)),
    (trimLastBlock ((q₀ :: qs₀).map blockOfPair)).map
      (fun b => Template.init b.1 (some (catLines (trimTrail b.2)))),
    ?_, ?_, ?_⟩
  · rw [TemplateList.strRes, renderAll_pairs, Option.map_some', joinSep_blocks]
  · have hlines : pySplitlines (pyStrip (catLines
        (linesOfBlocks ((q₀ :: qs₀).map blockOfPair)))) =
        linesOfBlocks (trimLastBlock ((q₀ :: qs₀).map blockOfPair)) := by
      rw [pySplitlines_pyStrip_catLines _ (linesOfBlocks_breakFree hbswf) ?hd ?nb,
        trimTrail_linesOfBlocks _ hbswf]
      case hd =>
        rw [hbscons]
        exact linesOfBlocks_headD _ _
      case nb =>
        rw [hbscons]
        exact linesOfBlocks_exists_nonblank _ _
    obtain ⟨b₀, bs₀, htl⟩ : ∃ b₀ bs₀,
        trimLastBlock ((q₀ :: qs₀).map blockOfPair) = b₀ :: bs₀ := by
      rw [hbscons]
      exact trimLastBlock_cons_shape _ _
    have hps := parseSpans_blocks (trimLastBlock ((q₀ :: qs₀).map blockOfPair))
      [] (trimLastBlock_wf hbswf) (by rw [htl]; simp)
    simp only [List.nil_append, List.length_nil] at hps
    rw [htl] at hps
    simp only [TemplateList.parse, hlines, findMetadata]
    rw [findMetadata_blocks _ 0 (trimLastBlock_wf hbswf), htl,
      hdrPairs_cons_fst]
    show TemplateList.parseSpans (linesOfBlocks (b₀ :: bs₀))
      (0 :: (hdrPairs (0 + (b₀.2.length + 2)) bs₀).map Prod.fst) = _
    rw [← hdrPairs_cons_fst]
    exact hps
  · rw [beqL_iff_names, List.map_map, List.map_map]
    have hL : (trimLastBlock ((q₀ :: qs₀).map blockOfPair)).map
        ((fun t => pyLower t.name) ∘
          (fun b => Template.init b.1 (some (catLines (trimTrail b.2))))) =
        ((trimLastBlock ((q₀ :: qs₀).map blockOfPair)).map Prod.fst).map
          (fun n => pyLower (pyLower n)) := by
      rw [List.map_map]
      exact List.map_congr_left (fun b _ => rfl)
    rw [hL, trimLastBlock_map_fst, List.map_map, List.map_map]
    apply List.map_congr_left
    intro q _
    show pyLower (pyLower (pyCapitalize (pyLower q.1))) = pyLower (pyLower q.1)
    rw [pyLower_idem, pyLower_capitalize_lower, pyLower_idem]

/-- Witness for C3 at a concrete input: the two-template collection
`[go, foo]` with one-line bodies round-trips through `str` and
`TemplateList.parse` up to `TemplateList.__eq__`. -/
theorem c3_roundtrip_witness :
    ∃ text parsed,
      TemplateList.strRes ([("Go".data, ["*.o".data]),
        ("foo".data, [".env".data, "env/".data])].map templateOfPair) = some text ∧
      TemplateList.parse text = .ok parsed ∧
      TemplateList.beqL parsed ([("Go".data, ["*.o".data]),
        ("foo".data, [".env".data, "env/".data])].map templateOfPair) = true :=
  c3_roundtrip [("Go".data, ["*.o".data]), ("foo".data, [".env".data, "env/".data])]
    (by decide) (by decide)

/-- C5 counterexample: `Template.parse` does NOT collapse blank lines
between the header and the first body line: on
`"### Go ###\n\n*.o"` the parsed body is `"\n*.o\n"` (leading blank line
kept), not the collapsed `"*.o\n"` the claim requires. -/
theorem c5_leading_blank_preserved :
    Template.parse "### Go ###\n\n*.o".data =
      .ok (Template.init "Go".data (some "\n*.o\n".data)) ∧
    some "\n*.o\n".data ≠ some "*.o\n".data := by
  decide

/-- C5 (amended): for an input consisting of a header line
`### <name> ###` (nonempty, ASCII, whitespace-free name — the case
mapping of `str.lower`/`str.capitalize` is modelled for ASCII) followed
by break-free body lines none of which begins with `"### "` and at least
one of which is non-blank, the parsed body is: every line after the
header through end of input, each terminated by exactly one newline,
with embedded AND leading blank lines preserved, trailing blank lines
removed, and the trailing whitespace of the final kept line stripped. -/
theorem c5_body_extraction (nm : PyStr) (bs : List PyStr) (h1 : nm ≠ [])
    (h2 : nm.all (fun c => !pyIsSpace c) = true)
    (_hascii : ∀ c ∈ nm, c.toNat ≤ 127)
    (h3 : ∀ l ∈ bs, breakFree l = true ∧ startsWithL "### ".data l = false)
    (h4 : ∃ l ∈ bs, blankL l = false) :
    Template.parse (catLines (mkHeader nm :: bs)) =
      .ok (Template.init nm (some (catLines (trimTrail bs)))) :=
  parse_block nm bs h1 h2 h3 h4

/-- Witness for C5 at a concrete input: header `### Go ###` followed by a
blank line, `"*.o "` (with trailing whitespace) and a final blank line:
the body keeps the leading blank line, loses the trailing blank line, and
the kept final line is right-trimmed. -/
theorem c5_body_extraction_witness :
    Template.parse (catLines (mkHeader "Go".data :: [[], "*.o ".data, []])) =
      .ok (Template.init "Go".data
        (some (catLines (trimTrail [[], "*.o ".data, []])))) :=
  c5_body_extraction "Go".data [[], "*.o ".data, []]
    (by decide) (by decide) (by decide) (by decide) (by decide)

